import Mathlib

/-!
Verification development for the pm3 process supervisor.

The daemon core (src/daemon.rs) is embedded shallowly: pure data is
translated directly, the OS interactions of the handlers (child spawning,
signal delivery, the filesystem holding the log files, wall-clock time)
are passed in as explicit oracle arguments, and each request handler
becomes a Lean function from its request arguments and the process table
to a response and an updated table.

The repository snapshot under src/ contains the richer daemon variant
(src/daemon.rs) together with the skeleton variant of the child spawner
(src/process.rs, which nulls the child's stdio and takes no path
argument); daemon.rs calls a three-argument spawner with log-file
redirection that is not present under src/.  Definitions for those
missing parts (the richer spawner, graceful_stop, the path layout, the
protocol decoder's failure behaviour) are modelled from the spec and are
marked as such in their doc comments.  Everything else is translated
from the source files.
-/

namespace PM3

/-- Process status, from the protocol module (declared by its users in
src/: src/process.rs and src/daemon.rs match on Online and Stopped). -/
inductive ProcessStatus
  | Online
  | Stopped
deriving DecidableEq

/-- Process configuration, from the fields of ProcessConfig that the core
interprets (src/process.rs uses command and cwd; src/daemon.rs carries the
whole record; group is forwarded into ProcessInfo). -/
structure ProcessConfig where
  command : String
  cwd : Option String := none
  env : List (String × String) := []
  group : Option String := none
deriving DecidableEq

/-- Per-process runtime record, from src/process.rs lines 43-50.  The
child handle is represented by the child's OS pid; the monotonic Instant
is an abstract tick count. -/
structure ManagedProcess where
  name : String
  config : ProcessConfig
  child : Nat
  status : ProcessStatus
  started_at : Nat
  restarts : Nat
deriving DecidableEq

/-- Wire-format projection of a managed process, from the fields used by
src/process.rs to_process_info and the printers in src/main.rs. -/
structure ProcessInfo where
  name : String
  pid : Option Nat
  status : ProcessStatus
  uptime : Option Nat
  restarts : Nat
  group : Option String
deriving DecidableEq

/-- The process table, src/process.rs line 71: a map from name to
managed-process record, embedded as an association list with the lookup,
insert and key operations of HashMap that the daemon uses. -/
abbrev ProcessTable := List (String × ManagedProcess)

/-- HashMap::get on an association list. -/
def assocGet {α : Type} : List (String × α) → String → Option α
  | [], _ => none
  | (k, v) :: rest, n => if k = n then some v else assocGet rest n

/-- HashMap::insert on an association list: replace the value of an
existing key in place, otherwise append the new binding. -/
def assocInsert {α : Type} : List (String × α) → String → α → List (String × α)
  | [], n, v => [(n, v)]
  | (k, w) :: rest, n, v =>
    if k = n then (k, v) :: rest else (k, w) :: assocInsert rest n v

/-- HashMap::contains_key. -/
def assocContains {α : Type} (t : List (String × α)) (n : String) : Bool :=
  (assocGet t n).isSome

/-- HashMap::keys. -/
def assocKeys {α : Type} (t : List (String × α)) : List String :=
  t.map Prod.fst

/-- Responses, from the variants matched in src/main.rs print_response and
produced in src/daemon.rs. -/
inductive Response
  | Success (message : Option String)
  | Error (message : String)
  | ProcessList (processes : List ProcessInfo)
  | LogLine (name : Option String) (line : String)
deriving DecidableEq

/-- Whether a response frame is an Error frame. -/
def Response.isErr : Response → Bool
  | .Error _ => true
  | _ => false

/-- Whether a response frame is a LogLine frame. -/
def Response.isLogLine : Response → Bool
  | .LogLine _ _ => true
  | _ => false

/-- Requests, from the variants built in src/main.rs command_to_request
and consumed in src/daemon.rs dispatch. -/
inductive Request
  | Start (configs : List (String × ProcessConfig)) (names : Option (List String))
      (env : Option String)
  | Stop (names : Option (List String))
  | Restart (names : Option (List String))
  | List
  | Kill
  | Reload (names : Option (List String))
  | Info (name : String)
  | Signal (name : String) (signal : String)
  | Save
  | Resurrect
  | Flush (names : Option (List String))
  | Log (name : Option String) (lines : Nat) (follow : Bool)
deriving DecidableEq

-- ---------------------------------------------------------------------------
-- Shell-word splitting (the shell_words crate used by src/process.rs)
-- ---------------------------------------------------------------------------

/-- States of the shell-words splitter, translated from the state machine
of the shell_words crate that src/process.rs parse_command calls. -/
inductive SwState
  | delimiter
  | backslash
  | unquoted
  | unquotedBackslash
  | singleQuoted
  | doubleQuoted
  | doubleQuotedBackslash
deriving DecidableEq

/-- One pass of shell_words::split over the remaining characters, with the
current state, the word built so far and the words already produced.
Returns none where the crate returns its parse error (an unclosed quote at
end of input). -/
def swSplit : List Char → SwState → String → List String → Option (List String)
  | [], st, word, words =>
    match st with
    | .delimiter => some words
    | .backslash => some (words ++ [word.push '\\'])
    | .unquoted => some (words ++ [word])
    | .unquotedBackslash => some (words ++ [word.push '\\'])
    | .singleQuoted => none
    | .doubleQuoted => none
    | .doubleQuotedBackslash => none
  | c :: cs, st, word, words =>
    match st with
    | .delimiter =>
      if c = '\x27' then swSplit cs .singleQuoted word words
      else if c = '"' then swSplit cs .doubleQuoted word words
      else if c = '\\' then swSplit cs .backslash word words
      else if c = '\t' ∨ c = ' ' ∨ c = '\n' then swSplit cs .delimiter word words
      else swSplit cs .unquoted (word.push c) words
    | .backslash =>
      if c = '\n' then swSplit cs .delimiter word words
      else swSplit cs .unquoted (word.push c) words
    | .unquoted =>
      if c = '\x27' then swSplit cs .singleQuoted word words
      else if c = '"' then swSplit cs .doubleQuoted word words
      else if c = '\\' then swSplit cs .unquotedBackslash word words
      else if c = '\t' ∨ c = ' ' ∨ c = '\n' then swSplit cs .delimiter "" (words ++ [word])
      else swSplit cs .unquoted (word.push c) words
    | .unquotedBackslash =>
      if c = '\n' then swSplit cs .unquoted word words
      else swSplit cs .unquoted (word.push c) words
    | .singleQuoted =>
      if c = '\x27' then swSplit cs .unquoted word words
      else swSplit cs .singleQuoted (word.push c) words
    | .doubleQuoted =>
      if c = '"' then swSplit cs .unquoted word words
      else if c = '\\' then swSplit cs .doubleQuotedBackslash word words
      else swSplit cs .doubleQuoted (word.push c) words
    | .doubleQuotedBackslash =>
      if c = '\n' then swSplit cs .doubleQuoted word words
      else if c = '$' ∨ c = '\x60' ∨ c = '"' ∨ c = '\\' then
        swSplit cs .doubleQuoted (word.push c) words
      else swSplit cs .doubleQuoted ((word.push '\\').push c) words

/-- shell_words::split: POSIX shell-word splitting with single and double
quotes and backslash escapes; none on an unclosed quote. -/
def shellWordsSplit (s : String) : Option (List String) :=
  swSplit s.data .delimiter "" []

-- ---------------------------------------------------------------------------
-- Command parsing and errors (src/process.rs)
-- ---------------------------------------------------------------------------

/-- ProcessError, from src/process.rs lines 10-18.  The io error of
SpawnFailed is carried as its message string. -/
inductive ProcessError
  | InvalidCommand (reason : String)
  | SpawnFailed (io : String)
  | NotFound (name : String)
deriving DecidableEq

/-- The Display rendering of ProcessError produced by its thiserror
attributes in src/process.rs lines 10-18. -/
def ProcessError.message : ProcessError → String
  | .InvalidCommand s => "invalid command: " ++ s
  | .SpawnFailed s => "failed to spawn process: " ++ s
  | .NotFound s => "process not found: " ++ s

/-- parse_command, from src/process.rs lines 24-37: split the command
with shell_words; an unparseable string or an empty word list is an
InvalidCommand error, otherwise the head is the program and the tail the
arguments. -/
def parse_command (command : String) : Except ProcessError (String × List String) :=
  match shellWordsSplit command with
  | none => .error (.InvalidCommand "failed to parse: missing closing quote")
  | some [] => .error (.InvalidCommand "command is empty")
  | some (w :: ws) => .ok (w, ws)

-- ---------------------------------------------------------------------------
-- Path layout and the child spawner
-- ---------------------------------------------------------------------------

/-- Modelled from the spec: the path layout component (spec 4.2 and the
on-disk artifacts of spec 3).  The paths module is not under src/; the
daemon resolves the per-process log files from a base data directory. -/
structure Paths where
  data_dir : String
deriving DecidableEq

/-- Modelled from the spec: the stdout log path of a process name,
under the logs directory of the data directory. -/
def Paths.stdout_log (p : Paths) (name : String) : String :=
  p.data_dir ++ "/logs/" ++ name ++ ".out"

/-- Modelled from the spec: the stderr log path of a process name,
under the logs directory of the data directory. -/
def Paths.stderr_log (p : Paths) (name : String) : String :=
  p.data_dir ++ "/logs/" ++ name ++ ".err"

/-- A stdio redirection of the child: the null device, or a file opened
with create-if-absent and append mode. -/
inductive Stdio
  | nullDev
  | appendFile (path : String)
deriving DecidableEq

/-- The fully configured child command handed to the OS: program,
arguments, working directory, extra environment and the three stdio
redirections. -/
structure ChildCommand where
  program : String
  args : List String
  cwd : Option String
  env : List (String × String)
  stdin : Stdio
  stdout : Stdio
  stderr : Stdio
deriving DecidableEq

/-- Modelled from the spec: the child command built by the richer child
spawner (spec 4.4 steps 2 and 3): working directory from the config,
config environment on top of the inherited one, stdin from the null
device, stdout and stderr appended to the per-name log files. -/
def child_command (name : String) (config : ProcessConfig) (paths : Paths)
    (program : String) (args : List String) : ChildCommand :=
  { program := program
    args := args
    cwd := config.cwd
    env := config.env
    stdin := .nullDev
    stdout := .appendFile (paths.stdout_log name)
    stderr := .appendFile (paths.stderr_log name) }

/-- The OS spawn oracle: given the configured command, the OS either
returns the new child's pid or an io error message. -/
abbrev OsSpawn := ChildCommand → Except String Nat

/-- Modelled from the spec: the richer spawn_process called by
src/daemon.rs as process::spawn_process(name, config, paths) (spec 4.4);
its definition is not under src/ (src/process.rs holds the skeleton
variant, which nulls the child's stdio and which spec note 9c says not to
follow).  Parse the command, build the redirected child command, ask the
OS to spawn it, and return the command together with a record whose
status is Online, whose started_at is the spawn time and whose restarts
counter is zero, exactly as in the skeleton's result record
(src/process.rs lines 96-103). -/
def spawn_process (name : String) (config : ProcessConfig) (paths : Paths)
    (now : Nat) (os : OsSpawn) :
    Except ProcessError (ChildCommand × ManagedProcess) :=
  match parse_command config.command with
  | .error e => .error e
  | .ok (program, args) =>
    let cmd := child_command name config paths program args
    match os cmd with
    | .error e => .error (.SpawnFailed e)
    | .ok pid =>
      .ok (cmd,
        { name := name
          config := config
          child := pid
          status := .Online
          started_at := now
          restarts := 0 })

/-- Modelled from the spec: graceful_stop (spec 4.5), called by
src/daemon.rs on managed processes but not defined under src/.  A process
whose status is already Stopped is left unchanged and the call succeeds;
otherwise the OS delivers SIGTERM (escalating to SIGKILL after the
deadline), which either fails with an io error or ends with the child
reaped, the status set to Stopped and the restarts counter unchanged.
The OS side is the osStop oracle, keyed by process name. -/
def graceful_stop (m : ManagedProcess) (osStop : String → Except String Unit) :
    Except String ManagedProcess :=
  if m.status = .Stopped then .ok m
  else
    match osStop m.name with
    | .error e => .error e
    | .ok _ => .ok { m with status := .Stopped }

-- ---------------------------------------------------------------------------
-- Start (src/daemon.rs handle_start, lines 166-220)
-- ---------------------------------------------------------------------------

/-- The resolution loop of handle_start for an explicit name list
(src/daemon.rs lines 172-188): each requested name is looked up in the
configs map; the first miss aborts the whole command with that name. -/
def selectConfigs (configs : List (String × ProcessConfig)) :
    List String → Except String (List (String × ProcessConfig))
  | [] => .ok []
  | n :: rest =>
    match assocGet configs n with
    | none => .error n
    | some c =>
      match selectConfigs configs rest with
      | .error m => .error m
      | .ok sel => .ok ((n, c) :: sel)

/-- The main loop of handle_start (src/daemon.rs lines 190-219): names
already present in the table are skipped silently; a spawn error aborts
the remaining targets, keeping what was already inserted; otherwise the
new record is inserted and the name recorded as freshly started.  The
trailing branch builds the response from the started list. -/
def startLoop (paths : Paths) (now : Nat) (os : OsSpawn) :
    List (String × ProcessConfig) → ProcessTable → List String →
      Response × ProcessTable
  | [], table, started =>
    (if started.isEmpty then
       Response.Success (some "everything is already running")
     else
       Response.Success (some ("started: " ++ String.intercalate ", " started)),
     table)
  | (name, config) :: rest, table, started =>
    if assocContains table name then startLoop paths now os rest table started
    else
      match spawn_process name config paths now os with
      | .ok managed =>
        startLoop paths now os rest (assocInsert table name managed.2)
          (started ++ [name])
      | .error e =>
        (Response.Error ("failed to start \x27" ++ name ++ "\x27: " ++ e.message),
         table)

/-- handle_start, src/daemon.rs lines 166-220. -/
def handle_start (paths : Paths) (now : Nat) (os : OsSpawn)
    (configs : List (String × ProcessConfig)) (names : Option (List String))
    (table : ProcessTable) : Response × ProcessTable :=
  match names with
  | some requested =>
    match selectConfigs configs requested with
    | .error n =>
      (Response.Error ("process \x27" ++ n ++ "\x27 not found in configs"), table)
    | .ok targets => startLoop paths now os targets table []
  | none => startLoop paths now os configs table []

-- ---------------------------------------------------------------------------
-- Stop (src/daemon.rs handle_stop, lines 222-259)
-- ---------------------------------------------------------------------------

/-- Target resolution shared by handle_stop and handle_restart
(src/daemon.rs lines 228-240 and 268-280): with an explicit list, every
requested name must be present in the table, and the first absent one
aborts with a not-found error; with no list the targets are all current
table keys. -/
def resolveTableTargets (table : ProcessTable) (names : Option (List String)) :
    Except String (List String)  :=
  match names with
  | some requested =>
    match requested.find? (fun n => !(assocContains table n)) with
    | some n => .error n
    | none => .ok requested
  | none => .ok (assocKeys table)

/-- The main loop of handle_stop (src/daemon.rs lines 242-254): targets
whose status is already Stopped are skipped; a stop failure aborts with
an error, keeping the table as mutated so far; a successful graceful stop
records the stopped entry in place.  The Rust loop unwraps the table
lookup, which cannot fail after resolution; the none branch below is that
unreachable arm. -/
def stopLoop (osStop : String → Except String Unit) :
    List String → ProcessTable → List String → Response × ProcessTable
  | [], table, stopped =>
    (Response.Success (some ("stopped: " ++ String.intercalate ", " stopped)), table)
  | n :: rest, table, stopped =>
    match assocGet table n with
    | none => (Response.Error ("process not found: " ++ n), table)
    | some m =>
      if m.status = .Stopped then stopLoop osStop rest table stopped
      else
        match graceful_stop m osStop with
        | .error e =>
          (Response.Error ("failed to stop \x27" ++ n ++ "\x27: " ++ e), table)
        | .ok m2 => stopLoop osStop rest (assocInsert table n m2) (stopped ++ [n])

/-- handle_stop, src/daemon.rs lines 222-259. -/
def handle_stop (osStop : String → Except String Unit)
    (names : Option (List String)) (table : ProcessTable) :
    Response × ProcessTable :=
  match resolveTableTargets table names with
  | .error n => (Response.Error ("process not found: " ++ n), table)
  | .ok targets => stopLoop osStop targets table []

-- ---------------------------------------------------------------------------
-- Restart (src/daemon.rs handle_restart, lines 261-313)
-- ---------------------------------------------------------------------------

/-- The main loop of handle_restart (src/daemon.rs lines 282-308): for
each target, capture its config and old restart count; if it is not
Stopped, gracefully stop it in place (a failure aborts, keeping the table
as mutated so far); then spawn a replacement with the same config, set
its restarts to the old count plus one and insert it; a spawn failure
aborts with an error.  The none branch is the Rust unwrap's unreachable
arm, as in stopLoop. -/
def restartLoop (paths : Paths) (now : Nat) (os : OsSpawn)
    (osStop : String → Except String Unit) :
    List String → ProcessTable → List String → Response × ProcessTable
  | [], table, restarted =>
    (Response.Success (some ("restarted: " ++ String.intercalate ", " restarted)),
     table)
  | n :: rest, table, restarted =>
    match assocGet table n with
    | none => (Response.Error ("process not found: " ++ n), table)
    | some m =>
      let config := m.config
      let old_restarts := m.restarts
      let afterStop : Except String (ManagedProcess × ProcessTable) :=
        if m.status = .Stopped then .ok (m, table)
        else
          match graceful_stop m osStop with
          | .error e => .error e
          | .ok m2 => .ok (m2, assocInsert table n m2)
      match afterStop with
      | .error e =>
        (Response.Error ("failed to stop \x27" ++ n ++ "\x27: " ++ e), table)
      | .ok (_, table1) =>
        match spawn_process n config paths now os with
        | .error e =>
          (Response.Error ("failed to restart \x27" ++ n ++ "\x27: " ++ e.message),
           table1)
        | .ok managed =>
          restartLoop paths now os osStop rest
            (assocInsert table1 n { managed.2 with restarts := old_restarts + 1 })
            (restarted ++ [n])

/-- handle_restart, src/daemon.rs lines 261-313. -/
def handle_restart (paths : Paths) (now : Nat) (os : OsSpawn)
    (osStop : String → Except String Unit)
    (names : Option (List String)) (table : ProcessTable) :
    Response × ProcessTable :=
  match resolveTableTargets table names with
  | .error n => (Response.Error ("process not found: " ++ n), table)
  | .ok targets => restartLoop paths now os osStop targets table []

-- ---------------------------------------------------------------------------
-- Log command, historical mode (src/daemon.rs lines 328-456)
-- ---------------------------------------------------------------------------

/-- The filesystem seen by the log reader: a file's full content by path,
or none when the file does not exist. -/
abbrev Fs := String → Option String

/-- Strip all trailing carriage returns, the trim_end_matches of a
carriage return applied after the newline trim in src/daemon.rs line 356. -/
def stripCR (s : String) : String :=
  ⟨(s.data.reverse.dropWhile (fun c => c = '\x0d')).reverse⟩

/-- The lines produced by the read_line loop of read_last_lines
(src/daemon.rs lines 345-358): split the content at newlines, drop the
empty tail segment a trailing newline produces, and strip trailing
carriage returns from each line. -/
def fileLines (content : String) : List String :=
  let parts := content.splitOn "\n"
  let parts := if content.endsWith "\n" then parts.dropLast else parts
  parts.map stripCR

/-- read_last_lines, src/daemon.rs lines 329-367: an absent or empty file
yields no lines, otherwise the last n of the file's lines. -/
def read_last_lines (fs : Fs) (path : String) (n : Nat) : List String :=
  match fs path with
  | none => []
  | some content =>
    if content.length = 0 then []
    else
      let all := fileLines content
      all.drop (all.length - n)

/-- Target resolution of handle_log (src/daemon.rs lines 378-391): a
supplied name is used as is, with no table membership check, so logs of
stopped or never-started names stay viewable; otherwise all current table
keys. -/
def logTargets (name : Option String) (table : ProcessTable) : List String :=
  match name with
  | some n => [n]
  | none => assocKeys table

/-- The frames written by handle_log in historical (non-follow) mode,
src/daemon.rs lines 369-456: with no name and an empty table, a single
Success frame; otherwise, for each target, one LogLine per line of the
last n lines of its stdout log, then of its stderr log, prefixed with the
name (and name:err) exactly when no single name was asked for or there
are several targets, and a terminal Success frame with no message. -/
def handle_log_frames (fs : Fs) (paths : Paths) (name : Option String)
    (lines : Nat) (table : ProcessTable) : List Response :=
  let names := logTargets name table
  if names.isEmpty && name.isNone then
    [Response.Success (some "no processes to show logs for")]
  else
    let showName := name.isNone || names.length > 1
    (names.map (fun pn =>
      (read_last_lines fs (paths.stdout_log pn) lines).map (fun l =>
        Response.LogLine (if showName then some pn else none) l)
      ++ (read_last_lines fs (paths.stderr_log pn) lines).map (fun l =>
        Response.LogLine (if showName then some (pn ++ ":err") else none) l))).flatten
    ++ [Response.Success none]

-- ---------------------------------------------------------------------------
-- Connection handler (src/daemon.rs handle_connection, lines 106-135)
-- ---------------------------------------------------------------------------

/-- What a connection handler run leaves behind: the frames written to
the client, and whether the handler returned cleanly (the write side is
shut down) or returned an error (the err constructor), which the
accept-loop task catches and logs, so the daemon itself survives either
way (src/daemon.rs lines 74-78). -/
inductive ConnOutcome
  | closed (frames : List Response)
  | err (frames : List Response) (msg : String)
deriving DecidableEq

/-- The frames a connection outcome delivered to the client. -/
def ConnOutcome.frames : ConnOutcome → List Response
  | .closed fs => fs
  | .err fs _ => fs

/-- handle_connection, src/daemon.rs lines 106-135, for the single
request line read from the connection.  The protocol decoder (not under
src/) is the decode argument; the streaming log path and the one-response
dispatch path are the serveLog and dispatch1 arguments.  An empty line
closes silently with no frames; a line the decoder rejects makes the
question-mark operator at line 121 return the error before anything is
written, so the client gets no frames at all; a Log request streams the
log frames; any other request produces exactly one dispatched response. -/
def handle_connection (decode : String → Except String Request)
    (serveLog : Option String → Nat → Bool → List Response)
    (dispatch1 : Request → Response) (line : String) : ConnOutcome :=
  if line = "" then .closed []
  else
    match decode line with
    | .error e => .err [] e
    | .ok (.Log name lines follow) => .closed (serveLog name lines follow)
    | .ok req => .closed [dispatch1 req]

-- ---------------------------------------------------------------------------
-- Basic lemmas about the association-list table operations
-- ---------------------------------------------------------------------------

theorem assocGet_insert {α : Type} (t : List (String × α)) (n k : String) (v : α) :
    assocGet (assocInsert t n v) k = if n = k then some v else assocGet t k := by
  induction t with
  | nil => simp [assocInsert, assocGet]
  | cons hd rest ih =>
    obtain ⟨a, b⟩ := hd
    by_cases han : a = n
    · subst han
      by_cases hak : a = k <;> simp [assocInsert, assocGet, hak]
    · by_cases hak : a = k
      · subst hak
        have : ¬ n = a := fun h => han h.symm
        simp [assocInsert, assocGet, han, this]
      · simp [assocInsert, assocGet, han, hak, ih]

theorem assocContains_insert {α : Type} (t : List (String × α)) (n k : String)
    (v : α) :
    assocContains (assocInsert t n v) k = ((n = k : Bool) || assocContains t k) := by
  by_cases h : n = k <;> simp [assocContains, assocGet_insert, h]

theorem assocKeys_insert_of_contains {α : Type} (t : List (String × α))
    (n : String) (v : α) (h : assocContains t n = true) :
    assocKeys (assocInsert t n v) = assocKeys t := by
  induction t with
  | nil => simp [assocContains, assocGet] at h
  | cons hd rest ih =>
    obtain ⟨a, b⟩ := hd
    by_cases han : a = n
    · simp [assocInsert, han, assocKeys]
    · simp [assocContains, assocGet, han] at h
      have hik := ih h
      simp only [assocKeys] at hik
      simp [assocInsert, han, assocKeys, hik]

theorem assocContains_of_mem_keys {α : Type} (t : List (String × α)) (n : String)
    (h : n ∈ assocKeys t) : assocContains t n = true := by
  induction t with
  | nil => simp [assocKeys] at h
  | cons hd rest ih =>
    obtain ⟨a, b⟩ := hd
    simp only [assocKeys, List.map_cons, List.mem_cons] at h
    by_cases han : a = n
    · simp [assocContains, assocGet, han]
    · rcases h with h | h
      · exact absurd h.symm han
      · simp only [assocContains, assocGet, han, if_false]
        exact ih h

/-- A record already stopped is unchanged by setting its status to
Stopped. -/
theorem stopped_update_self (m : ManagedProcess) (h : m.status = .Stopped) :
    ({ m with status := ProcessStatus.Stopped } : ManagedProcess) = m := by
  cases m
  simp_all

-- ---------------------------------------------------------------------------
-- Claim C1: connection handler on an undecodable request line
-- ---------------------------------------------------------------------------

/-- Modelled from the spec: the protocol decoder's action on a request
line it cannot decode (spec 4.1: decoding fails with ProtocolError when
the line is not well-formed or names an unknown variant); decode_request
itself is not under src/.  This function stands for the codec restricted
to undecodable lines. -/
def failingDecode : String → Except String Request :=
  fun s => .error ("failed to decode request: " ++ s)

/-- A placeholder log streamer and dispatcher for concrete runs of the
connection handler; the decode-error path never reaches either. -/
def noopServeLog : Option String → Nat → Bool → List Response := fun _ _ _ => []

/-- See noopServeLog. -/
def noopDispatch : Request → Response := fun _ => Response.Success none

/-- C1, counterexample: on a connection whose request line fails to
decode, the handler of src/daemon.rs lines 106-135 writes no frame at
all: the question-mark after decode_request returns the error before
anything is written, so the client gets zero response frames and in
particular no Error response, contradicting the claim. -/
theorem decode_error_no_error_frame_counterexample :
    handle_connection failingDecode noopServeLog noopDispatch "garbage"
      = ConnOutcome.err [] "failed to decode request: garbage"
    ∧ (handle_connection failingDecode noopServeLog noopDispatch
        "garbage").frames = [] :=
  ⟨rfl, rfl⟩

/-- C1, amended: for every connection whose single nonempty request line
fails to decode, the handler writes no response frames and returns the
decode error; the spawned connection task catches and logs it, so the
daemon survives, but the client is left with zero response frames. -/
theorem decode_error_closes_without_frames
    (decode : String → Except String Request)
    (serveLog : Option String → Nat → Bool → List Response)
    (dispatch1 : Request → Response) (line e : String)
    (hne : line ≠ "") (hdec : decode line = .error e) :
    handle_connection decode serveLog dispatch1 line = ConnOutcome.err [] e
    ∧ (handle_connection decode serveLog dispatch1 line).frames = [] := by
  simp [handle_connection, hne, hdec, ConnOutcome.frames]

/-- C1, witness for the amended theorem at a concrete undecodable line. -/
theorem decode_error_closes_without_frames_witness :
    handle_connection failingDecode noopServeLog noopDispatch "not json"
      = ConnOutcome.err [] "failed to decode request: not json" :=
  (decode_error_closes_without_frames failingDecode noopServeLog noopDispatch
    "not json" "failed to decode request: not json" (by decide) rfl).1

-- ---------------------------------------------------------------------------
-- Claim C2: spawn redirects stdin/stdout/stderr
-- ---------------------------------------------------------------------------

/-- C2: for every spawn whose command parses, the child command is built
with stdin from the null device, stdout appended to the per-name .out log
and stderr appended to the per-name .err log under the logs directory
(create-if-absent append mode is the meaning of Stdio.appendFile), and a
successful spawn_process hands exactly that command to the OS. -/
theorem spawn_redirects_stdio (name : String) (config : ProcessConfig)
    (paths : Paths) (prog : String) (args : List String) (now : Nat)
    (os : OsSpawn)
    (hp : parse_command config.command = .ok (prog, args)) :
    (child_command name config paths prog args).stdin = Stdio.nullDev
    ∧ (child_command name config paths prog args).stdout
        = Stdio.appendFile (paths.stdout_log name)
    ∧ (child_command name config paths prog args).stderr
        = Stdio.appendFile (paths.stderr_log name)
    ∧ paths.stdout_log name = paths.data_dir ++ "/logs/" ++ name ++ ".out"
    ∧ paths.stderr_log name = paths.data_dir ++ "/logs/" ++ name ++ ".err"
    ∧ (∀ res, spawn_process name config paths now os = .ok res →
        res.1 = child_command name config paths prog args) := by
  refine ⟨rfl, rfl, rfl, rfl, rfl, ?_⟩
  intro res hres
  simp only [spawn_process, hp] at hres
  cases hos : os (child_command name config paths prog args) with
  | error e => simp [hos] at hres
  | ok pid =>
    simp [hos] at hres
    rw [← hres]

/-- C2, witness at a concrete spawn. -/
theorem spawn_redirects_stdio_witness :
    (child_command "web" { command := "sleep 999" } ⟨"/data"⟩ "sleep"
        ["999"]).stdout
      = Stdio.appendFile (Paths.stdout_log ⟨"/data"⟩ "web") :=
  (spawn_redirects_stdio "web" { command := "sleep 999" } ⟨"/data"⟩ "sleep"
    ["999"] 0 (fun _ => .ok 1) rfl).2.1

-- ---------------------------------------------------------------------------
-- Claim C8: command parsing and the fields of a fresh spawn
-- ---------------------------------------------------------------------------

/-- C8: command splitting follows POSIX shell-word rules (the shell_words
state machine: single quotes, double quotes, backslash escapes, failure
on an unclosed quote); a command splitting to zero words fails with
InvalidCommand (witnessed in general and at the empty and
whitespace-only commands of the source's own tests); and a successful
spawn_process yields a record with status Online, started_at now and
restarts zero. -/
theorem parse_command_and_spawn_fields :
    parse_command "" = .error (.InvalidCommand "command is empty")
    ∧ parse_command "   " = .error (.InvalidCommand "command is empty")
    ∧ (∀ s, shellWordsSplit s = some [] →
        parse_command s = .error (.InvalidCommand "command is empty"))
    ∧ parse_command "node server.js" = .ok ("node", ["server.js"])
    ∧ parse_command "bash -c \"echo hello\"" = .ok ("bash", ["-c", "echo hello"])
    ∧ parse_command "echo \x27hello world\x27" = .ok ("echo", ["hello world"])
    ∧ parse_command "echo hello\\ world" = .ok ("echo", ["hello world"])
    ∧ shellWordsSplit "echo \x27unclosed" = none
    ∧ (∀ name config paths now os cmd m,
        spawn_process name config paths now os = Except.ok (cmd, m) →
        m.status = ProcessStatus.Online ∧ m.started_at = now ∧ m.restarts = 0
          ∧ m.config = config ∧ m.name = name) := by
  refine ⟨rfl, rfl, ?_, rfl, rfl, rfl, rfl, rfl, ?_⟩
  · intro s hs
    simp [parse_command, hs]
  · intro name config paths now os cmd m hok
    simp only [spawn_process] at hok
    cases hp : parse_command config.command with
    | error e => simp [hp] at hok
    | ok pa =>
      obtain ⟨prog, args⟩ := pa
      simp only [hp] at hok
      cases hos : os (child_command name config paths prog args) with
      | error e => simp [hos] at hok
      | ok pid =>
        simp [hos] at hok
        obtain ⟨-, hm⟩ := hok
        subst hm
        exact ⟨rfl, rfl, rfl, rfl, rfl⟩

/-- C8, witness discharging the hypotheses of the universally quantified
conjuncts at concrete inputs. -/
theorem parse_command_and_spawn_fields_witness :
    parse_command "  \t " = .error (.InvalidCommand "command is empty") :=
  parse_command_and_spawn_fields.2.2.1 "  \t " rfl

-- ---------------------------------------------------------------------------
-- Helper lemmas about the historical log reader
-- ---------------------------------------------------------------------------

theorem read_last_lines_zero (fs : Fs) (p : String) :
    read_last_lines fs p 0 = [] := by
  cases h : fs p with
  | none => simp [read_last_lines, h]
  | some c =>
    simp only [read_last_lines, h]
    split
    · rfl
    · simp [List.drop_length]

theorem read_last_lines_absent (fs : Fs) (p : String) (k : Nat)
    (h : fs p = none) : read_last_lines fs p k = [] := by
  simp [read_last_lines, h]

theorem handle_log_frames_some_eq (fs : Fs) (paths : Paths) (pn : String)
    (n : Nat) (table : ProcessTable) :
    handle_log_frames fs paths (some pn) n table =
      ((read_last_lines fs (paths.stdout_log pn) n).map (Response.LogLine none)
        ++ (read_last_lines fs (paths.stderr_log pn) n).map
             (Response.LogLine none))
      ++ [Response.Success none] := by
  simp [handle_log_frames, logTargets]

theorem handle_log_frames_none_eq (fs : Fs) (paths : Paths) (n : Nat)
    (table : ProcessTable) (hkeys : assocKeys table ≠ []) :
    handle_log_frames fs paths none n table =
      ((assocKeys table).map (fun q =>
        (read_last_lines fs (paths.stdout_log q) n).map
          (fun l => Response.LogLine (some q) l)
        ++ (read_last_lines fs (paths.stderr_log q) n).map
          (fun l => Response.LogLine (some (q ++ ":err")) l))).flatten
      ++ [Response.Success none] := by
  have h1 : (assocKeys table).isEmpty = false := by
    cases hk : assocKeys table with
    | nil => exact absurd hk hkeys
    | cons a l => rfl
  simp [handle_log_frames, logTargets, h1]

-- ---------------------------------------------------------------------------
-- Claim C7: historical log requests
-- ---------------------------------------------------------------------------

/-- C7: in historical mode each target contributes the last n lines of
its .out file followed by the last n lines of its .err file; n = 0
yields no LogLine frames; an absent file contributes no lines; and the
stream ends with the terminal Success frame carrying no message. -/
theorem log_historical_frames (fs : Fs) (paths : Paths) (pn : String)
    (table : ProcessTable) (n : Nat) :
    handle_log_frames fs paths (some pn) n table =
      ((read_last_lines fs (paths.stdout_log pn) n).map (Response.LogLine none)
        ++ (read_last_lines fs (paths.stderr_log pn) n).map
             (Response.LogLine none))
      ++ [Response.Success none]
    ∧ (assocKeys table ≠ [] →
        handle_log_frames fs paths none n table =
          ((assocKeys table).map (fun q =>
            (read_last_lines fs (paths.stdout_log q) n).map
              (fun l => Response.LogLine (some q) l)
            ++ (read_last_lines fs (paths.stderr_log q) n).map
              (fun l => Response.LogLine (some (q ++ ":err")) l))).flatten
          ++ [Response.Success none])
    ∧ (∀ p, read_last_lines fs p 0 = [])
    ∧ (∀ p k, fs p = none → read_last_lines fs p k = [])
    ∧ (handle_log_frames fs paths (some pn) 0 table).all
        (fun r => !r.isLogLine) = true
    ∧ (handle_log_frames fs paths (some pn) n table).getLast?
        = some (Response.Success none) := by
  refine ⟨handle_log_frames_some_eq fs paths pn n table,
    handle_log_frames_none_eq fs paths n table,
    fun p => read_last_lines_zero fs p,
    fun p k h => read_last_lines_absent fs p k h, ?_, ?_⟩
  · rw [handle_log_frames_some_eq, read_last_lines_zero, read_last_lines_zero]
    rfl
  · rw [handle_log_frames_some_eq]
    exact List.getLast?_concat _

/-- C7, witness: a zero-line historical request reads no lines. -/
theorem log_historical_frames_witness :
    read_last_lines (fun _ => some "a\nb\n") "d/logs/web.out" 0 = [] :=
  (log_historical_frames (fun _ => some "a\nb\n") ⟨"d"⟩ "web" [] 3).2.2.1
    "d/logs/web.out"

-- ---------------------------------------------------------------------------
-- Claim C10: log request for a name absent from the table
-- ---------------------------------------------------------------------------

/-- C10: a historical log request naming a process absent from the table
is not rejected: no NotFound and no Error frame is produced, the reader
serves whatever log files exist at that name's paths (empty when absent),
and the stream still ends with the terminal Success frame. -/
theorem log_unknown_name_not_rejected (fs : Fs) (paths : Paths) (q : String)
    (lines : Nat) (table : ProcessTable)
    (habs : assocContains table q = false) :
    handle_log_frames fs paths (some q) lines table =
      ((read_last_lines fs (paths.stdout_log q) lines).map (Response.LogLine none)
        ++ (read_last_lines fs (paths.stderr_log q) lines).map
             (Response.LogLine none))
      ++ [Response.Success none]
    ∧ (∀ r ∈ handle_log_frames fs paths (some q) lines table, r.isErr = false)
    ∧ (handle_log_frames fs paths (some q) lines table).getLast?
        = some (Response.Success none) := by
  refine ⟨handle_log_frames_some_eq fs paths q lines table, ?_, ?_⟩
  · intro r hr
    rw [handle_log_frames_some_eq] at hr
    simp only [List.mem_append, List.mem_map, List.mem_singleton] at hr
    rcases hr with (⟨l, -, hl⟩ | ⟨l, -, hl⟩) | hl
    · rw [← hl]; rfl
    · rw [← hl]; rfl
    · rw [hl]; rfl
  · rw [handle_log_frames_some_eq]
    exact List.getLast?_concat _

/-- C10, witness at a concrete absent name with one existing log file. -/
theorem log_unknown_name_not_rejected_witness :
    (handle_log_frames (fun p => if p = "d/logs/ghost.out" then some "x\n" else none)
      ⟨"d"⟩ (some "ghost") 5 []).getLast? = some (Response.Success none) :=
  (log_unknown_name_not_rejected
    (fun p => if p = "d/logs/ghost.out" then some "x\n" else none)
    ⟨"d"⟩ "ghost" 5 [] rfl).2.2

-- ---------------------------------------------------------------------------
-- Claim C4: Start with an unknown name
-- ---------------------------------------------------------------------------

theorem selectConfigs_error_of_miss (configs : List (String × ProcessConfig))
    (requested : List String) (n : String)
    (hmem : n ∈ requested) (hmiss : assocGet configs n = none) :
    ∃ m, m ∈ requested ∧ assocGet configs m = none
      ∧ selectConfigs configs requested = .error m := by
  induction requested with
  | nil => cases hmem
  | cons k rest ih =>
    cases hk : assocGet configs k with
    | none => exact ⟨k, by simp, hk, by simp [selectConfigs, hk]⟩
    | some c =>
      have hne : n ≠ k := by
        intro h
        subst h
        rw [hmiss] at hk
        cases hk
      have hmem' : n ∈ rest := by
        rcases List.mem_cons.mp hmem with h | h
        · exact absurd h hne
        · exact h
      obtain ⟨m, hm1, hm2, hm3⟩ := ih hmem'
      exact ⟨m, List.mem_cons_of_mem _ hm1, hm2, by simp [selectConfigs, hk, hm3]⟩

/-- C4: a Start request whose name list contains a key absent from the
configs fails on the first miss, before any spawn: the response is an
Error naming that missing process and the table is returned unchanged. -/
theorem start_unknown_name_rejected (paths : Paths) (now : Nat) (os : OsSpawn)
    (configs : List (String × ProcessConfig)) (requested : List String)
    (table : ProcessTable) (n : String)
    (hmem : n ∈ requested) (hmiss : assocGet configs n = none) :
    ∃ m, m ∈ requested ∧ assocGet configs m = none ∧
      handle_start paths now os configs (some requested) table
        = (Response.Error ("process \x27" ++ m ++ "\x27 not found in configs"),
           table) := by
  obtain ⟨m, hm1, hm2, hm3⟩ := selectConfigs_error_of_miss configs requested n
    hmem hmiss
  exact ⟨m, hm1, hm2, by simp [handle_start, hm3]⟩

/-- C4, witness at a concrete request naming a process missing from the
configs. -/
theorem start_unknown_name_rejected_witness :
    ∃ m, m ∈ ["ghost"]
      ∧ assocGet [("web", ({ command := "sleep 999" } : ProcessConfig))] m = none
      ∧ handle_start ⟨"d"⟩ 0 (fun _ => .ok 1)
          [("web", { command := "sleep 999" })] (some ["ghost"]) []
        = (Response.Error ("process \x27" ++ m ++ "\x27 not found in configs"),
           []) :=
  start_unknown_name_rejected ⟨"d"⟩ 0 (fun _ => .ok 1)
    [("web", { command := "sleep 999" })] ["ghost"] [] "ghost"
    (by simp) (by decide)

-- ---------------------------------------------------------------------------
-- Helper lemmas about handle_stop
-- ---------------------------------------------------------------------------

theorem stopLoop_cons_stopped (osStop : String → Except String Unit)
    (n : String) (rest : List String) (table : ProcessTable)
    (acc : List String) (m : ManagedProcess)
    (hm : assocGet table n = some m) (hst : m.status = ProcessStatus.Stopped) :
    stopLoop osStop (n :: rest) table acc = stopLoop osStop rest table acc := by
  simp [stopLoop, hm, hst]

theorem stopLoop_cons_online (osStop : String → Except String Unit)
    (n : String) (rest : List String) (table : ProcessTable)
    (acc : List String) (m : ManagedProcess)
    (hm : assocGet table n = some m) (hst : m.status ≠ ProcessStatus.Stopped)
    (hok : osStop m.name = .ok ()) :
    stopLoop osStop (n :: rest) table acc
      = stopLoop osStop rest
          (assocInsert table n { m with status := ProcessStatus.Stopped })
          (acc ++ [n]) := by
  simp [stopLoop, hm, hst, graceful_stop, hok]

/-- With a stop oracle that always succeeds, stopLoop ends in Success and
the resulting table is the input table with every target's status set to
Stopped, the keys unchanged. -/
theorem stopLoop_all_ok (osStop : String → Except String Unit)
    (hok : ∀ s, osStop s = .ok ()) :
    ∀ (targets : List String) (table : ProcessTable) (acc : List String),
    (∀ n ∈ targets, assocContains table n = true) →
    ∃ t1 stopped,
      stopLoop osStop targets table acc
        = (Response.Success (some ("stopped: " ++ String.intercalate ", " stopped)),
           t1)
      ∧ (∀ k, assocGet t1 k =
          if k ∈ targets then
            (assocGet table k).map
              (fun m => { m with status := ProcessStatus.Stopped })
          else assocGet table k)
      ∧ assocKeys t1 = assocKeys table := by
  intro targets
  induction targets with
  | nil =>
    intro table acc _
    exact ⟨table, acc, rfl, by intro k; simp, rfl⟩
  | cons n rest ih =>
    intro table acc hsub
    have hn := hsub n (by simp)
    obtain ⟨m, hm⟩ : ∃ m, assocGet table n = some m := by
      cases hg : assocGet table n with
      | none => rw [assocContains, hg] at hn; cases hn
      | some m => exact ⟨_, rfl⟩
    by_cases hst : m.status = ProcessStatus.Stopped
    · have hrest : ∀ k ∈ rest, assocContains table k = true :=
        fun k hk => hsub k (List.mem_cons_of_mem _ hk)
      obtain ⟨t1, stopped, heq, hget, hkeys⟩ := ih table acc hrest
      refine ⟨t1, stopped, ?_, ?_, hkeys⟩
      · rw [stopLoop_cons_stopped osStop n rest table acc m hm hst]
        exact heq
      · intro k
        rw [hget k]
        by_cases hkr : k ∈ rest
        · simp [hkr, List.mem_cons]
        · by_cases hkn : k = n
          · subst hkn
            simp [hkr, hm, stopped_update_self m hst]
          · simp [hkr, hkn, List.mem_cons]
    · have hm2 : assocContains (assocInsert table n
          { m with status := ProcessStatus.Stopped }) n = true := by
        simp [assocContains_insert]
      have hrest : ∀ k ∈ rest, assocContains (assocInsert table n
          { m with status := ProcessStatus.Stopped }) k = true := by
        intro k hk
        rw [assocContains_insert]
        simp [hsub k (List.mem_cons_of_mem _ hk)]
      obtain ⟨t1, stopped, heq, hget, hkeys⟩ :=
        ih (assocInsert table n { m with status := ProcessStatus.Stopped })
          (acc ++ [n]) hrest
      refine ⟨t1, stopped, ?_, ?_, ?_⟩
      · rw [stopLoop_cons_online osStop n rest table acc m hm hst (hok m.name)]
        exact heq
      · intro k
        rw [hget k, assocGet_insert]
        by_cases hkr : k ∈ rest
        · by_cases hkn : n = k
          · subst hkn
            simp [hkr, hm, List.mem_cons]
          · simp [hkr, hkn, List.mem_cons]
        · by_cases hkn : n = k
          · subst hkn
            simp [hkr, hm, List.mem_cons]
          · have hkn2 : ¬ k = n := fun h => hkn h.symm
            simp [hkr, hkn, hkn2, List.mem_cons]
      · rw [hkeys]
        exact assocKeys_insert_of_contains table n _ hn

/-- When every target in the table is already Stopped, stopLoop skips all
of them and returns Success with the accumulator unchanged, leaving the
table as it is. -/
theorem stopLoop_all_stopped (osStop : String → Except String Unit)
    (targets : List String) (table : ProcessTable) (acc : List String)
    (h : ∀ n ∈ targets, ∃ m, assocGet table n = some m
      ∧ m.status = ProcessStatus.Stopped) :
    stopLoop osStop targets table acc
      = (Response.Success (some ("stopped: " ++ String.intercalate ", " acc)),
         table) := by
  induction targets with
  | nil => rfl
  | cons n rest ih =>
    obtain ⟨m, hm, hst⟩ := h n (by simp)
    rw [stopLoop_cons_stopped osStop n rest table acc m hm hst]
    exact ih (fun k hk => h k (List.mem_cons_of_mem _ hk))

theorem resolveTableTargets_some_ok (table : ProcessTable) (req : List String)
    (h : ∀ n ∈ req, assocContains table n = true) :
    resolveTableTargets table (some req) = .ok req := by
  have hf : req.find? (fun n => !(assocContains table n)) = none := by
    rw [List.find?_eq_none]
    intro x hx
    simp [h x hx]
  simp [resolveTableTargets, hf]

-- ---------------------------------------------------------------------------
-- Claim C5: Stop is idempotent
-- ---------------------------------------------------------------------------

/-- C5: with resolvable targets and successful signal delivery, running
Stop twice leaves the table exactly as one run does; the second run stops
nothing (every target is already Stopped, so the loop skips it) and still
returns Success, with an empty stopped list in its message. -/
theorem stop_idempotent (osStop : String → Except String Unit)
    (names : Option (List String)) (table : ProcessTable)
    (hok : ∀ s, osStop s = .ok ())
    (hex : ∀ req, names = some req → ∀ n ∈ req, assocContains table n = true) :
    (handle_stop osStop names (handle_stop osStop names table).2).2
      = (handle_stop osStop names table).2
    ∧ (handle_stop osStop names (handle_stop osStop names table).2).1
      = Response.Success (some "stopped: ")
    ∧ ∃ msg, (handle_stop osStop names table).1 = Response.Success (some msg) := by
  -- resolve the target list once and for all
  obtain ⟨req, hres1, hsub⟩ :
      ∃ req, resolveTableTargets table names = .ok req
        ∧ ∀ n ∈ req, assocContains table n = true := by
    cases names with
    | some req =>
      have hsub := hex req rfl
      exact ⟨req, resolveTableTargets_some_ok table req hsub, hsub⟩
    | none =>
      exact ⟨assocKeys table, rfl, fun n hn => assocContains_of_mem_keys table n hn⟩
  obtain ⟨t1, stopped, heq, hget, hkeys⟩ := stopLoop_all_ok osStop hok req table [] hsub
  have h1 : handle_stop osStop names table
      = (Response.Success (some ("stopped: " ++ String.intercalate ", " stopped)),
         t1) := by
    simp [handle_stop, hres1, heq]
  -- the second resolution gives the same target list
  have hsub1 : ∀ n ∈ req, assocContains t1 n = true := by
    intro n hn
    have := hget n
    rw [if_pos hn] at this
    have hc := hsub n hn
    rw [assocContains] at hc ⊢
    rw [this]
    cases hg : assocGet table n with
    | none => rw [hg] at hc; cases hc
    | some m => simp [hg]
  have hres2 : resolveTableTargets t1 names = .ok req := by
    cases names with
    | some r =>
      have hr : r = req := by
        simp only [resolveTableTargets] at hres1
        cases hf : r.find? (fun n => !(assocContains table n)) with
        | some x => rw [hf] at hres1; cases hres1
        | none => rw [hf] at hres1; exact Except.ok.inj hres1
      subst hr
      exact resolveTableTargets_some_ok t1 r hsub1
    | none =>
      have hk : req = assocKeys table := by
        simp only [resolveTableTargets] at hres1
        exact (Except.ok.inj hres1).symm
      subst hk
      simp [resolveTableTargets, hkeys]
  have hstopped1 : ∀ n ∈ req, ∃ m, assocGet t1 n = some m
      ∧ m.status = ProcessStatus.Stopped := by
    intro n hn
    have := hget n
    rw [if_pos hn] at this
    have hc := hsub n hn
    rw [assocContains] at hc
    cases hg : assocGet table n with
    | none => rw [hg] at hc; cases hc
    | some m =>
      rw [hg] at this
      exact ⟨_, this, rfl⟩
  have h2 : handle_stop osStop names t1
      = (Response.Success (some ("stopped: " ++ String.intercalate ", " [])), t1) := by
    simp only [handle_stop, hres2]
    exact stopLoop_all_stopped osStop req t1 [] hstopped1
  refine ⟨?_, ?_, ?_⟩
  · rw [h1]
    simp only [h2]
  · rw [h1]
    simp only [h2]
    rfl
  · rw [h1]
    exact ⟨_, rfl⟩

/-- C5, witness at a concrete one-process table. -/
theorem stop_idempotent_witness :
    (handle_stop (fun _ => .ok ()) (some ["web"])
      (handle_stop (fun _ => .ok ()) (some ["web"])
        [("web", { name := "web", config := { command := "sleep 999" },
                   child := 7, status := ProcessStatus.Online,
                   started_at := 0, restarts := 0 })]).2).1
      = Response.Success (some "stopped: ") :=
  (stop_idempotent (fun _ => .ok ()) (some ["web"])
    [("web", { name := "web", config := { command := "sleep 999" },
               child := 7, status := ProcessStatus.Online,
               started_at := 0, restarts := 0 })]
    (fun _ => rfl)
    (by intro req hreq n hn
        cases hreq
        simp only [List.mem_singleton] at hn
        subst hn
        rfl)).2.1

-- ---------------------------------------------------------------------------
-- Helper lemmas about spawn_process and handle_restart
-- ---------------------------------------------------------------------------

theorem assocInsert_assocInsert {α : Type} (t : List (String × α)) (n : String)
    (a b : α) : assocInsert (assocInsert t n a) n b = assocInsert t n b := by
  induction t with
  | nil => simp [assocInsert]
  | cons hd rest ih =>
    obtain ⟨k, v⟩ := hd
    by_cases hk : k = n <;> simp [assocInsert, hk, ih]

/-- The fields of a successfully spawned record, read off spawn_process. -/
theorem spawn_ok_fields (name : String) (config : ProcessConfig) (paths : Paths)
    (now : Nat) (os : OsSpawn) (r : ChildCommand × ManagedProcess)
    (h : spawn_process name config paths now os = Except.ok r) :
    r.2.status = ProcessStatus.Online ∧ r.2.started_at = now ∧ r.2.restarts = 0
      ∧ r.2.config = config ∧ r.2.name = name := by
  simp only [spawn_process] at h
  cases hp : parse_command config.command with
  | error e => simp [hp] at h
  | ok pa =>
    obtain ⟨prog, args⟩ := pa
    simp only [hp] at h
    cases hos : os (child_command name config paths prog args) with
    | error e => simp [hos] at h
    | ok pid =>
      simp [hos] at h
      rw [← h]
      exact ⟨rfl, rfl, rfl, rfl, rfl⟩

/-- Spawning depends on the clock only through the started_at field: a
spawn that succeeds at one instant succeeds at any other, with the same
command and pid and only started_at changed. -/
theorem spawn_ok_at_any_time (name : String) (config : ProcessConfig)
    (paths : Paths) (now now2 : Nat) (os : OsSpawn)
    (r : ChildCommand × ManagedProcess)
    (h : spawn_process name config paths now os = Except.ok r) :
    spawn_process name config paths now2 os
      = Except.ok (r.1, { r.2 with started_at := now2 }) := by
  simp only [spawn_process] at h ⊢
  cases hp : parse_command config.command with
  | error e => simp [hp] at h
  | ok pa =>
    obtain ⟨prog, args⟩ := pa
    simp only [hp] at h
    cases hos : os (child_command name config paths prog args) with
    | error e => simp [hos] at h
    | ok pid =>
      simp only [hos] at h ⊢
      have hr := Except.ok.inj h
      rw [← hr]

theorem restartLoop_cons_spawn_ok (paths : Paths) (now : Nat) (os : OsSpawn)
    (osStop : String → Except String Unit) (n : String) (rest : List String)
    (table : ProcessTable) (acc : List String) (m : ManagedProcess)
    (r : ChildCommand × ManagedProcess)
    (hm : assocGet table n = some m) (hstop : osStop m.name = .ok ())
    (hsp : spawn_process n m.config paths now os = Except.ok r) :
    restartLoop paths now os osStop (n :: rest) table acc
      = restartLoop paths now os osStop rest
          (assocInsert table n { r.2 with restarts := m.restarts + 1 })
          (acc ++ [n]) := by
  by_cases hst : m.status = ProcessStatus.Stopped
  · simp [restartLoop, hm, hst, hsp]
  · simp [restartLoop, hm, hst, graceful_stop, hstop, hsp, assocInsert_assocInsert]

/-- With successful stops and spawns, restartLoop replaces every target
with a freshly spawned record whose restart counter is the old one plus
one, reports them all restarted, and leaves non-targets untouched. -/
theorem restartLoop_all_ok (paths : Paths) (now : Nat) (os : OsSpawn)
    (osStop : String → Except String Unit)
    (hok : ∀ s, osStop s = .ok ()) :
    ∀ (targets : List String) (table : ProcessTable) (acc : List String),
    targets.Nodup →
    (∀ n ∈ targets, ∃ m, assocGet table n = some m) →
    (∀ n ∈ targets, ∀ m, assocGet table n = some m →
      ∃ r, spawn_process n m.config paths now os = Except.ok r) →
    ∃ t1,
      restartLoop paths now os osStop targets table acc
        = (Response.Success
            (some ("restarted: " ++ String.intercalate ", " (acc ++ targets))), t1)
      ∧ (∀ k, k ∉ targets → assocGet t1 k = assocGet table k)
      ∧ (∀ k ∈ targets, ∃ old r, assocGet table k = some old
          ∧ spawn_process k old.config paths now os = Except.ok r
          ∧ assocGet t1 k = some { r.2 with restarts := old.restarts + 1 }) := by
  intro targets
  induction targets with
  | nil =>
    intro table acc _ _ _
    exact ⟨table, by simp [restartLoop], fun k _ => rfl, by simp⟩
  | cons n rest ih =>
    intro table acc hnd hsub hspawn
    obtain ⟨m, hm⟩ := hsub n (by simp)
    obtain ⟨r, hr⟩ := hspawn n (by simp) m hm
    have hnr : n ∉ rest := (List.nodup_cons.mp hnd).1
    have hndr : rest.Nodup := (List.nodup_cons.mp hnd).2
    set t2 := assocInsert table n { r.2 with restarts := m.restarts + 1 } with ht2
    have hget2 : ∀ k, assocGet t2 k
        = if n = k then some { r.2 with restarts := m.restarts + 1 }
          else assocGet table k := fun k => assocGet_insert table n k _
    have hsub2 : ∀ k ∈ rest, ∃ mm, assocGet t2 k = some mm := by
      intro k hk
      have hkn : ¬ n = k := fun h => hnr (h ▸ hk)
      rw [hget2 k, if_neg hkn]
      exact hsub k (List.mem_cons_of_mem _ hk)
    have hspawn2 : ∀ k ∈ rest, ∀ mm, assocGet t2 k = some mm →
        ∃ rr, spawn_process k mm.config paths now os = Except.ok rr := by
      intro k hk mm hmm
      have hkn : ¬ n = k := fun h => hnr (h ▸ hk)
      rw [hget2 k, if_neg hkn] at hmm
      exact hspawn k (List.mem_cons_of_mem _ hk) mm hmm
    obtain ⟨t1, heq, hout, hin⟩ := ih t2 (acc ++ [n]) hndr hsub2 hspawn2
    refine ⟨t1, ?_, ?_, ?_⟩
    · rw [restartLoop_cons_spawn_ok paths now os osStop n rest table acc m r hm
        (hok m.name) hr, heq]
      simp
    · intro k hk
      have hkr : k ∉ rest := fun h => hk (List.mem_cons_of_mem _ h)
      have hkn : ¬ n = k := fun h => hk (h ▸ List.mem_cons_self n rest)
      rw [hout k hkr, hget2 k, if_neg hkn]
    · intro k hk
      rcases List.mem_cons.mp hk with hkn | hkr
      · subst hkn
        refine ⟨m, r, hm, hr, ?_⟩
        rw [hout k hnr, hget2 k, if_pos rfl]
      · obtain ⟨old, rr, hold, hrr, hget1⟩ := hin k hkr
        have hkn : ¬ n = k := fun h => hnr (h ▸ hkr)
        rw [hget2 k, if_neg hkn] at hold
        exact ⟨old, rr, hold, hrr, hget1⟩

-- ---------------------------------------------------------------------------
-- Claim C3: restart increments the counter and resets started_at
-- ---------------------------------------------------------------------------

/-- C3: for resolvable targets with successful stops and spawns, every
restarted entry carries restarts equal to the old count plus one and a
started_at reset to the new spawn instant; running Restart again
accumulates to the old count plus two, with started_at reset again. -/
theorem restart_increments_counter (paths : Paths) (now now2 : Nat)
    (os : OsSpawn) (osStop : String → Except String Unit)
    (req : List String) (table : ProcessTable)
    (hok : ∀ s, osStop s = .ok ())
    (hnd : req.Nodup)
    (hsub : ∀ n ∈ req, assocContains table n = true)
    (hspawn : ∀ n ∈ req, ∀ m, assocGet table n = some m →
      ∃ r, spawn_process n m.config paths now os = Except.ok r) :
    (handle_restart paths now os osStop (some req) table).1
      = Response.Success (some ("restarted: " ++ String.intercalate ", " req))
    ∧ ∀ n ∈ req,
      ∃ old m1 m2,
        assocGet table n = some old
        ∧ assocGet (handle_restart paths now os osStop (some req) table).2 n
            = some m1
        ∧ assocGet (handle_restart paths now2 os osStop (some req)
            (handle_restart paths now os osStop (some req) table).2).2 n
            = some m2
        ∧ m1.restarts = old.restarts + 1 ∧ m1.started_at = now
        ∧ m1.status = ProcessStatus.Online ∧ m1.config = old.config
        ∧ m2.restarts = old.restarts + 2 ∧ m2.started_at = now2 := by
  have hsub' : ∀ n ∈ req, ∃ m, assocGet table n = some m := by
    intro n hn
    have := hsub n hn
    rw [assocContains] at this
    cases hg : assocGet table n with
    | none => rw [hg] at this; cases this
    | some m => exact ⟨m, rfl⟩
  obtain ⟨t1, heq1, hout1, hin1⟩ :=
    restartLoop_all_ok paths now os osStop hok req table [] hnd hsub' hspawn
  have hres1 : resolveTableTargets table (some req) = .ok req :=
    resolveTableTargets_some_ok table req hsub
  have h1 : handle_restart paths now os osStop (some req) table
      = (Response.Success (some ("restarted: " ++ String.intercalate ", " req)),
         t1) := by
    simp only [handle_restart, hres1]
    simpa using heq1
  -- the second run
  have hsub1 : ∀ n ∈ req, ∃ m, assocGet t1 n = some m := by
    intro n hn
    obtain ⟨old, r, -, -, hget⟩ := hin1 n hn
    exact ⟨_, hget⟩
  have hcont1 : ∀ n ∈ req, assocContains t1 n = true := by
    intro n hn
    obtain ⟨mm, hmm⟩ := hsub1 n hn
    rw [assocContains, hmm]
    rfl
  have hspawn1 : ∀ n ∈ req, ∀ m, assocGet t1 n = some m →
      ∃ r, spawn_process n m.config paths now2 os = Except.ok r := by
    intro n hn m hmget
    obtain ⟨old, r, hold, hr, hget⟩ := hin1 n hn
    rw [hget] at hmget
    have hm : m = { r.2 with restarts := old.restarts + 1 } := (Option.some.inj hmget).symm
    have hcfg : m.config = old.config := by
      rw [hm]
      exact (spawn_ok_fields n old.config paths now os r hr).2.2.2.1
    rw [hcfg]
    exact ⟨_, spawn_ok_at_any_time n old.config paths now now2 os r hr⟩
  obtain ⟨t2, heq2, hout2, hin2⟩ :=
    restartLoop_all_ok paths now2 os osStop hok req t1 [] hnd hsub1 hspawn1
  have hres2 : resolveTableTargets t1 (some req) = .ok req :=
    resolveTableTargets_some_ok t1 req hcont1
  have h2 : handle_restart paths now2 os osStop (some req) t1
      = (Response.Success (some ("restarted: " ++ String.intercalate ", " req)),
         t2) := by
    simp only [handle_restart, hres2]
    simpa using heq2
  refine ⟨by rw [h1], ?_⟩
  intro n hn
  obtain ⟨old, r, hold, hr, hget1⟩ := hin1 n hn
  obtain ⟨old2, r2, hold2, hr2, hget2⟩ := hin2 n hn
  have hfields := spawn_ok_fields n old.config paths now os r hr
  rw [hget1] at hold2
  have hold2' : old2 = { r.2 with restarts := old.restarts + 1 } :=
    (Option.some.inj hold2).symm
  have hfields2 := spawn_ok_fields n old2.config paths now2 os r2 hr2
  refine ⟨old, { r.2 with restarts := old.restarts + 1 },
    { r2.2 with restarts := old2.restarts + 1 }, hold, ?_, ?_, ?_, ?_, ?_, ?_, ?_, ?_⟩
  · rw [h1]
    exact hget1
  · rw [h1, h2]
    exact hget2
  · rfl
  · exact hfields.2.1
  · exact hfields.1
  · exact hfields.2.2.2.1
  · rw [hold2']
  · exact hfields2.2.1

/-- C3, witness at a concrete single-process table. -/
theorem restart_increments_counter_witness :
    (handle_restart ⟨"d"⟩ 5 (fun _ => .ok 8) (fun _ => .ok ()) (some ["web"])
      [("web", { name := "web", config := { command := "sleep 999" },
                 child := 7, status := ProcessStatus.Online,
                 started_at := 0, restarts := 0 })]).1
      = Response.Success (some ("restarted: " ++ String.intercalate ", " ["web"])) :=
  (restart_increments_counter ⟨"d"⟩ 5 6 (fun _ => .ok 8) (fun _ => .ok ())
    ["web"]
    [("web", { name := "web", config := { command := "sleep 999" },
               child := 7, status := ProcessStatus.Online,
               started_at := 0, restarts := 0 })]
    (fun _ => rfl) (by decide)
    (by intro n hn
        simp only [List.mem_singleton] at hn
        subst hn
        rfl)
    (by intro n hn m hm
        simp only [List.mem_singleton] at hn
        subst hn
        simp [assocGet] at hm
        subst hm
        exact ⟨_, rfl⟩)).1

-- ---------------------------------------------------------------------------
-- Claim C9: restart is not atomic when the respawn fails
-- ---------------------------------------------------------------------------

/-- C9: when a Restart target was Online, its graceful stop succeeded and
the respawn then fails, the command returns an Error while the old entry
remains in the table with status Stopped and its original restarts count,
and no later target of the same request is processed (every other entry is
untouched). -/
theorem restart_spawn_failure_not_atomic (paths : Paths) (now : Nat)
    (os : OsSpawn) (osStop : String → Except String Unit)
    (n : String) (rest : List String) (table : ProcessTable)
    (m : ManagedProcess) (e : ProcessError)
    (hm : assocGet table n = some m)
    (hon : m.status = ProcessStatus.Online)
    (hstop : osStop m.name = .ok ())
    (hrest : ∀ k ∈ rest, assocContains table k = true)
    (hfail : spawn_process n m.config paths now os = .error e) :
    handle_restart paths now os osStop (some (n :: rest)) table
      = (Response.Error ("failed to restart \x27" ++ n ++ "\x27: " ++ e.message),
         assocInsert table n { m with status := ProcessStatus.Stopped })
    ∧ assocGet (assocInsert table n { m with status := ProcessStatus.Stopped }) n
        = some { m with status := ProcessStatus.Stopped }
    ∧ ({ m with status := ProcessStatus.Stopped } : ManagedProcess).restarts
        = m.restarts
    ∧ ∀ k, k ≠ n →
        assocGet (assocInsert table n { m with status := ProcessStatus.Stopped }) k
          = assocGet table k := by
  have hcontn : assocContains table n = true := by
    rw [assocContains, hm]
    rfl
  have hres : resolveTableTargets table (some (n :: rest)) = .ok (n :: rest) := by
    refine resolveTableTargets_some_ok table (n :: rest) ?_
    intro k hk
    rcases List.mem_cons.mp hk with h | h
    · rw [h]; exact hcontn
    · exact hrest k h
  refine ⟨?_, ?_, rfl, ?_⟩
  · simp only [handle_restart, hres]
    simp [restartLoop, hm, hon, graceful_stop, hstop, hfail]
  · rw [assocGet_insert, if_pos rfl]
  · intro k hk
    rw [assocGet_insert, if_neg (fun h => hk h.symm)]

/-- C9, witness at a concrete Online process whose respawn fails. -/
theorem restart_spawn_failure_not_atomic_witness :
    handle_restart ⟨"d"⟩ 3 (fun _ => .error "no such file")
      (fun _ => .ok ()) (some ["web"])
      [("web", { name := "web", config := { command := "sleep 999" },
                 child := 7, status := ProcessStatus.Online,
                 started_at := 0, restarts := 2 })]
      = (Response.Error ("failed to restart \x27web\x27: "
          ++ ProcessError.message (.SpawnFailed "no such file")),
         assocInsert
           [("web", { name := "web", config := { command := "sleep 999" },
                      child := 7, status := ProcessStatus.Online,
                      started_at := 0, restarts := 2 })]
           "web"
           { name := "web", config := { command := "sleep 999" },
             child := 7, status := ProcessStatus.Stopped,
             started_at := 0, restarts := 2 }) :=
  (restart_spawn_failure_not_atomic ⟨"d"⟩ 3 (fun _ => .error "no such file")
    (fun _ => .ok ()) "web" []
    [("web", { name := "web", config := { command := "sleep 999" },
               child := 7, status := ProcessStatus.Online,
               started_at := 0, restarts := 2 })]
    { name := "web", config := { command := "sleep 999" },
      child := 7, status := ProcessStatus.Online,
      started_at := 0, restarts := 2 }
    (.SpawnFailed "no such file")
    rfl rfl rfl (by intro k hk; cases hk) rfl).1

-- ---------------------------------------------------------------------------
-- Helper lemmas about handle_start's main loop
-- ---------------------------------------------------------------------------

theorem startLoop_cons_contains (paths : Paths) (now : Nat) (os : OsSpawn)
    (nm : String) (c : ProcessConfig) (rest : List (String × ProcessConfig))
    (table : ProcessTable) (acc : List String)
    (hc : assocContains table nm = true) :
    startLoop paths now os ((nm, c) :: rest) table acc
      = startLoop paths now os rest table acc := by
  simp [startLoop, hc]

theorem startLoop_cons_fresh_ok (paths : Paths) (now : Nat) (os : OsSpawn)
    (nm : String) (c : ProcessConfig) (rest : List (String × ProcessConfig))
    (table : ProcessTable) (acc : List String)
    (r : ChildCommand × ManagedProcess)
    (hc : assocContains table nm = false)
    (hsp : spawn_process nm c paths now os = Except.ok r) :
    startLoop paths now os ((nm, c) :: rest) table acc
      = startLoop paths now os rest (assocInsert table nm r.2) (acc ++ [nm]) := by
  simp [startLoop, hc, hsp]

theorem startLoop_cons_fresh_fail (paths : Paths) (now : Nat) (os : OsSpawn)
    (nm : String) (c : ProcessConfig) (rest : List (String × ProcessConfig))
    (table : ProcessTable) (acc : List String) (e : ProcessError)
    (hc : assocContains table nm = false)
    (hsp : spawn_process nm c paths now os = Except.error e) :
    startLoop paths now os ((nm, c) :: rest) table acc
      = (Response.Error ("failed to start \x27" ++ nm ++ "\x27: " ++ e.message),
         table) := by
  simp [startLoop, hc, hsp]

/-- The start loop never removes or replaces a pre-existing entry. -/
theorem startLoop_preserves (paths : Paths) (now : Nat) (os : OsSpawn) :
    ∀ (targets : List (String × ProcessConfig)) (table : ProcessTable)
      (acc : List String) (k : String) (v : ManagedProcess),
    assocGet table k = some v →
    assocGet (startLoop paths now os targets table acc).2 k = some v := by
  intro targets
  induction targets with
  | nil => intro table acc k v hv; exact hv
  | cons p rest ih =>
    obtain ⟨nm, c⟩ := p
    intro table acc k v hv
    by_cases hc : assocContains table nm
    · rw [startLoop_cons_contains paths now os nm c rest table acc hc]
      exact ih table acc k v hv
    · rw [Bool.not_eq_true] at hc
      cases hsp : spawn_process nm c paths now os with
      | ok r =>
        rw [startLoop_cons_fresh_ok paths now os nm c rest table acc r hc hsp]
        refine ih _ _ k v ?_
        rw [assocGet_insert]
        have hkn : ¬ nm = k := by
          intro h
          subst h
          rw [assocContains, hv] at hc
          cases hc
        rw [if_neg hkn]
        exact hv
      | error e =>
        rw [startLoop_cons_fresh_fail paths now os nm c rest table acc e hc hsp]
        exact hv

/-- With every fresh spawn succeeding, the start loop returns Success,
reporting exactly the accumulated and freshly started names, or the
already-running message when that list is empty. -/
theorem startLoop_all_spawn_ok (paths : Paths) (now : Nat) (os : OsSpawn) :
    ∀ (targets : List (String × ProcessConfig)) (table : ProcessTable)
      (acc : List String),
    (targets.map Prod.fst).Nodup →
    (∀ p ∈ targets, assocContains table p.1 = false →
      ∃ r, spawn_process p.1 p.2 paths now os = Except.ok r) →
    (startLoop paths now os targets table acc).1
      = if (acc ++ (targets.filter
            (fun p => !(assocContains table p.1))).map Prod.fst).isEmpty
        then Response.Success (some "everything is already running")
        else Response.Success (some ("started: " ++ String.intercalate ", "
          (acc ++ (targets.filter
            (fun p => !(assocContains table p.1))).map Prod.fst))) := by
  intro targets
  induction targets with
  | nil =>
    intro table acc _ _
    simp [startLoop]
  | cons p rest ih =>
    obtain ⟨nm, c⟩ := p
    intro table acc hnd hok
    have hnd2 : (nm :: rest.map Prod.fst).Nodup := by
      simpa only [List.map_cons] using hnd
    have hnm : nm ∉ rest.map Prod.fst := (List.nodup_cons.mp hnd2).1
    have hnd' : (rest.map Prod.fst).Nodup := (List.nodup_cons.mp hnd2).2
    by_cases hc : assocContains table nm
    · rw [startLoop_cons_contains paths now os nm c rest table acc hc,
        ih table acc hnd' (fun q hq => hok q (List.mem_cons_of_mem _ hq))]
      have hfc : List.filter (fun p => !(assocContains table p.1)) ((nm, c) :: rest)
          = List.filter (fun p => !(assocContains table p.1)) rest := by
        simp [List.filter_cons, hc]
      rw [hfc]
    · rw [Bool.not_eq_true] at hc
      obtain ⟨r, hsp⟩ := hok (nm, c) (by simp) hc
      rw [startLoop_cons_fresh_ok paths now os nm c rest table acc r hc hsp]
      have hok' : ∀ q ∈ rest,
          assocContains (assocInsert table nm r.2) q.1 = false →
          ∃ rr, spawn_process q.1 q.2 paths now os = Except.ok rr := by
        intro q hq hcq
        rw [assocContains_insert] at hcq
        exact hok q (List.mem_cons_of_mem _ hq)
          (by
            cases hh : assocContains table q.1
            · rfl
            · rw [hh] at hcq; simp at hcq)
      rw [ih (assocInsert table nm r.2) (acc ++ [nm]) hnd' hok']
      have hfilter : rest.filter
            (fun q => !(assocContains (assocInsert table nm r.2) q.1))
          = rest.filter (fun q => !(assocContains table q.1)) := by
        refine List.filter_congr ?_
        intro q hq
        have hqn : ¬ nm = q.1 := by
          intro h
          exact hnm (h ▸ List.mem_map_of_mem Prod.fst hq)
        rw [assocContains_insert]
        simp [hqn]
      rw [hfilter]
      have hlist : (acc ++ [nm])
            ++ (rest.filter (fun q => !(assocContains table q.1))).map Prod.fst
          = acc ++ (((nm, c) :: rest).filter
            (fun q => !(assocContains table q.1))).map Prod.fst := by
        simp [List.filter_cons, hc]
      rw [hlist]

/-- When the first fresh target whose spawn is attempted fails, the start
loop stops there: Error response, earlier fresh targets inserted, later
targets not inserted. -/
theorem startLoop_abort (paths : Paths) (now : Nat) (os : OsSpawn) :
    ∀ (pre : List (String × ProcessConfig)) (nm : String) (c : ProcessConfig)
      (post : List (String × ProcessConfig)) (table : ProcessTable)
      (acc : List String) (e : ProcessError),
    ((pre ++ (nm, c) :: post).map Prod.fst).Nodup →
    assocContains table nm = false →
    (∀ p ∈ pre, assocContains table p.1 = false →
      ∃ r, spawn_process p.1 p.2 paths now os = Except.ok r) →
    spawn_process nm c paths now os = Except.error e →
    (startLoop paths now os (pre ++ (nm, c) :: post) table acc).1
      = Response.Error ("failed to start \x27" ++ nm ++ "\x27: " ++ e.message)
    ∧ (∀ p ∈ pre, assocContains table p.1 = false →
        assocContains
          (startLoop paths now os (pre ++ (nm, c) :: post) table acc).2 p.1
          = true)
    ∧ (∀ q ∈ post, assocContains table q.1 = false →
        assocContains
          (startLoop paths now os (pre ++ (nm, c) :: post) table acc).2 q.1
          = false) := by
  intro pre
  induction pre with
  | nil =>
    intro nm c post table acc e _ hcn hpre hfail
    rw [List.nil_append,
      startLoop_cons_fresh_fail paths now os nm c post table acc e hcn hfail]
    refine ⟨rfl, ?_, ?_⟩
    · intro p hp
      cases hp
    · intro q _ hq
      exact hq
  | cons p0 pre' ih =>
    intro nm c post table acc e hnd hcn hpre hfail
    obtain ⟨k, c0⟩ := p0
    have hnd2 : (k :: (pre' ++ (nm, c) :: post).map Prod.fst).Nodup := by
      simpa only [List.cons_append, List.map_cons] using hnd
    have hknotin : k ∉ (pre' ++ (nm, c) :: post).map Prod.fst :=
      (List.nodup_cons.mp hnd2).1
    have hnd' : ((pre' ++ (nm, c) :: post).map Prod.fst).Nodup :=
      (List.nodup_cons.mp hnd2).2
    have hknm : ¬ k = nm := by
      intro h
      refine hknotin ?_
      rw [h]
      simp
    by_cases hck : assocContains table k
    · rw [List.cons_append,
        startLoop_cons_contains paths now os k c0 _ table acc hck]
      obtain ⟨r1, r2, r3⟩ := ih nm c post table acc e hnd' hcn
        (fun q hq => hpre q (List.mem_cons_of_mem _ hq)) hfail
      refine ⟨r1, ?_, r3⟩
      intro q hq hcq
      rcases List.mem_cons.mp hq with h | h
      · rw [h] at hcq
        rw [hck] at hcq
        cases hcq
      · exact r2 q h hcq
    · rw [Bool.not_eq_true] at hck
      obtain ⟨r, hsp⟩ := hpre (k, c0) (by simp) hck
      rw [List.cons_append,
        startLoop_cons_fresh_ok paths now os k c0 _ table acc r hck hsp]
      have hcn' : assocContains (assocInsert table k r.2) nm = false := by
        rw [assocContains_insert]
        simp [hknm, hcn]
      have hpre' : ∀ q ∈ pre',
          assocContains (assocInsert table k r.2) q.1 = false →
          ∃ rr, spawn_process q.1 q.2 paths now os = Except.ok rr := by
        intro q hq hcq
        rw [assocContains_insert] at hcq
        exact hpre q (List.mem_cons_of_mem _ hq)
          (by
            cases hh : assocContains table q.1
            · rfl
            · rw [hh] at hcq; simp at hcq)
      obtain ⟨r1, r2, r3⟩ := ih nm c post (assocInsert table k r.2) (acc ++ [k])
        e hnd' hcn' hpre' hfail
      refine ⟨r1, ?_, ?_⟩
      · intro q hq hcq
        rcases List.mem_cons.mp hq with h | h
        · rw [h]
          have hgetk : assocGet (assocInsert table k r.2) k = some r.2 := by
            rw [assocGet_insert, if_pos rfl]
          have := startLoop_preserves paths now os (pre' ++ (nm, c) :: post)
            (assocInsert table k r.2) (acc ++ [k]) k r.2 hgetk
          rw [assocContains, this]
          rfl
        · refine r2 q h ?_
          have hqk : ¬ k = q.1 := by
            intro hh
            refine hknotin ?_
            rw [hh]
            exact List.mem_map_of_mem Prod.fst (by simp [h])
          rw [assocContains_insert]
          simp [hqk, hcq]
      · intro q hq hcq
        refine r3 q hq ?_
        have hqk : ¬ k = q.1 := by
          intro hh
          refine hknotin ?_
          rw [hh]
          exact List.mem_map_of_mem Prod.fst (by simp [hq])
        rw [assocContains_insert]
        simp [hqk, hcq]

-- ---------------------------------------------------------------------------
-- Claim C6: Start skips running targets, aborts on spawn error
-- ---------------------------------------------------------------------------

/-- C6: for a Start request over its resolved targets (a request with no
name list resolves to all configs; with a fully found name list it
reduces to the same loop, last conjunct): names already in the table are
skipped silently and their entries untouched (first conjunct, which holds
on every outcome); when every fresh spawn succeeds the response is
Success, with the already-running message exactly when nothing fresh was
started and otherwise listing exactly the freshly started names (second
conjunct); on a spawn error the loop aborts: Error response naming the
failure, earlier freshly inserted entries remain, later fresh targets are
not inserted (third conjunct). -/
theorem start_skip_and_abort_semantics (paths : Paths) (now : Nat)
    (os : OsSpawn) (configs : List (String × ProcessConfig))
    (table : ProcessTable)
    (hnd : (configs.map Prod.fst).Nodup) :
    (∀ k v, assocGet table k = some v →
      assocGet (handle_start paths now os configs none table).2 k = some v)
    ∧ ((∀ p ∈ configs, assocContains table p.1 = false →
        ∃ r, spawn_process p.1 p.2 paths now os = Except.ok r) →
      (handle_start paths now os configs none table).1
        = if ((configs.filter
              (fun p => !(assocContains table p.1))).map Prod.fst).isEmpty
          then Response.Success (some "everything is already running")
          else Response.Success (some ("started: " ++ String.intercalate ", "
            ((configs.filter
              (fun p => !(assocContains table p.1))).map Prod.fst))))
    ∧ (∀ pre nm c post e, configs = pre ++ (nm, c) :: post →
        assocContains table nm = false →
        (∀ p ∈ pre, assocContains table p.1 = false →
          ∃ r, spawn_process p.1 p.2 paths now os = Except.ok r) →
        spawn_process nm c paths now os = Except.error e →
        (handle_start paths now os configs none table).1
          = Response.Error ("failed to start \x27" ++ nm ++ "\x27: " ++ e.message)
        ∧ (∀ p ∈ pre, assocContains table p.1 = false →
            assocContains
              (handle_start paths now os configs none table).2 p.1 = true)
        ∧ (∀ q ∈ post, assocContains table q.1 = false →
            assocContains
              (handle_start paths now os configs none table).2 q.1 = false))
    ∧ (∀ requested targets, selectConfigs configs requested = .ok targets →
        handle_start paths now os configs (some requested) table
          = startLoop paths now os targets table []) := by
  refine ⟨?_, ?_, ?_, ?_⟩
  · intro k v hv
    exact startLoop_preserves paths now os configs table [] k v hv
  · intro hok
    have h := startLoop_all_spawn_ok paths now os configs table [] hnd hok
    simpa using h
  · intro pre nm c post e hconf hcn hpre hfail
    subst hconf
    exact startLoop_abort paths now os pre nm c post table [] e hnd hcn hpre hfail
  · intro requested targets hsel
    simp [handle_start, hsel]

/-- C6, witness: a concrete request with one fresh and one already
running target starts exactly the fresh one. -/
theorem start_skip_and_abort_semantics_witness :
    (handle_start ⟨"d"⟩ 0 (fun _ => .ok 3)
      [("web", { command := "sleep 999" }), ("worker", { command := "sleep 1" })]
      none
      [("worker", { name := "worker", config := { command := "sleep 1" },
                    child := 4, status := ProcessStatus.Online,
                    started_at := 0, restarts := 0 })]).1
      = Response.Success (some ("started: " ++ String.intercalate ", " ["web"])) :=
  (start_skip_and_abort_semantics ⟨"d"⟩ 0 (fun _ => .ok 3)
    [("web", { command := "sleep 999" }), ("worker", { command := "sleep 1" })]
    [("worker", { name := "worker", config := { command := "sleep 1" },
                  child := 4, status := ProcessStatus.Online,
                  started_at := 0, restarts := 0 })]
    (by decide)).2.1
    (by
      intro p hp hc
      rcases List.mem_cons.mp hp with h | h
      · subst h
        exact ⟨_, rfl⟩
      · simp only [List.mem_singleton] at h
        subst h
        exact ⟨_, rfl⟩)

end PM3
